import Mathlib

/-!
Verification of the forex arbitrage bot (`src/strategies/arbitrage.py`,
`src/trader.py`, `src/utils/performance.py`) against its natural-language
specification.

Python `dict`s keyed by currency pairs are modelled as association lists with
Python-dict update semantics (`dinsert` replaces the value of an existing key
in place, otherwise appends at the end; `dlookup` finds the unique entry).
Python `float` arithmetic is modelled exactly over `ℚ`.  Currencies are
`String`s, as in the source.
-/

/-- Lookup in an association list, modelling `d[k]` / `d.get(k)`. -/
def dlookup {κ ν : Type} [DecidableEq κ] (m : List (κ × ν)) (k : κ) : Option ν :=
  (m.find? (fun kv => kv.1 = k)).map Prod.snd

/-- Membership test, modelling Python `k in d`. -/
def dcontains {κ ν : Type} [DecidableEq κ] (m : List (κ × ν)) (k : κ) : Bool :=
  m.any (fun kv => kv.1 = k)

/-- Update, modelling Python `d[k] = v`: replaces the value of an existing key
in place, otherwise appends the binding at the end (Python dicts preserve
insertion order). -/
def dinsert {κ ν : Type} [DecidableEq κ] (m : List (κ × ν)) (k : κ) (v : ν) : List (κ × ν) :=
  match m with
  | [] => [(k, v)]
  | kv :: rest => if kv.1 = k then (k, v) :: rest else kv :: dinsert rest k v

/-- A currency pair `(base, quote)`. -/
abbrev Pair := String × String

/-- The effective-rate book: pair → positive rate.  Modelled as an
insertion-ordered dictionary. -/
abbrev EffMap := List (Pair × ℚ)

/-- A quote as used by `trader.py`: the dictionaries returned by
`get_current_price` (keys `bid`, `ask`, `mid`, `spread`, `timestamp`)
plus the `synthetic` marker added for synthesized inverse entries. -/
structure Quote where
  bid : ℚ
  ask : ℚ
  mid : ℚ
  spread : ℚ
  timestamp : ℕ
  synthetic : Bool
deriving DecidableEq, Repr

/-- A profitable cycle as produced by `find_profitable_cycles`
(`src/strategies/arbitrage.py` lines 68-72): the dict
`{'pairs': …, 'profit_ratio': …, 'effective_profit': …}`.
The source's `profit_ratio` key is named `profit_rate` here. -/
structure CycleInfo where
  pairs : List Pair
  profit_rate : ℚ
  effective_profit : ℚ
deriving DecidableEq, Repr

/-- The scoring loop of `find_profitable_cycles` (`arbitrage.py` lines 50-60):
walks the index list `range(len(path))`, multiplying the effective rate of
edge `(path[i], path[(i+1) % len(path)])` into the accumulator and collecting
the edge, aborting with `none` as soon as an edge is missing. -/
def scoreGo (eff : EffMap) (path : List String) :
    List ℕ → ℚ → List Pair → Option (ℚ × List Pair)
  | [], pr, cp => some (pr, cp)
  | i :: rest, pr, cp =>
    let from_curr := path.getD i ""
    let to_curr := path.getD ((i + 1) % path.length) ""
    match dlookup eff (from_curr, to_curr) with
    | some rate => scoreGo eff path rest (pr * rate) (cp ++ [(from_curr, to_curr)])
    | none => none

/-- The cycle-emission step of the DFS (`arbitrage.py` lines 46-73): score the
closed path with `scoreGo`, charge `0.0001` per trade, and emit the cycle when
`effective_profit > min_profit`. -/
def scorePath (eff : EffMap) (path : List String) (min_profit : ℚ) : List CycleInfo :=
  match scoreGo eff path (List.range path.length) 1 [] with
  | none => []
  | some (pr, cycle_pairs) =>
    let total_transaction_cost : ℚ := (1 / 10000) * cycle_pairs.length
    let effective_profit := pr - 1 - total_transaction_cost
    if min_profit < effective_profit then
      [{ pairs := cycle_pairs, profit_rate := pr, effective_profit := effective_profit }]
    else []

/-- The recursive `dfs` of `find_profitable_cycles` (`arbitrage.py` lines
42-88).  At `depth ≥ max_cycle_length` it scores the path if the walk is back
at `start_currency`; otherwise it prunes a revisited vertex (unless that
vertex is `start_currency` at positive depth), marks the current vertex
visited, and explores every currency reachable by an edge of
`effective_rates`. -/
def dfs (eff : EffMap) (currencies : List String) (start_currency : String)
    (max_cycle_length : ℕ) (min_profit : ℚ) (current : String)
    (path visited : List String) (depth : ℕ) : List CycleInfo :=
  if h : max_cycle_length ≤ depth then
    if current = start_currency then scorePath eff path min_profit else []
  else if current ∈ visited ∧ (current ≠ start_currency ∨ depth = 0) then []
  else
    let new_visited := visited.insert current
    currencies.flatMap (fun next_curr =>
      if (dlookup eff (current, next_curr)).isSome then
        dfs eff currencies start_currency max_cycle_length min_profit next_curr
          (path ++ [current]) new_visited (depth + 1)
      else [])
termination_by max_cycle_length - depth
decreasing_by simp_wf; omega

/-- The currency set induced by the keys of `exchange_rates`
(`arbitrage.py` lines 29-32).  Python's `set` is modelled as a
duplicate-free list; the iteration order of a Python set is unspecified. -/
def currenciesOf (exchange_rates : List (Pair × Quote)) : List String :=
  ((exchange_rates.map Prod.fst).flatMap (fun p => [p.1, p.2])).dedup

/-- Model of `find_profitable_cycles` (`arbitrage.py` lines 10-96).  The `valid_pairs`
spread filter of lines 35-38 is computed but never used by the search, exactly
as in the source.  Python's stable `list.sort(key=…, reverse=True)` is
insertion sort by the non-increasing `effective_profit` relation. -/
def find_profitable_cycles (exchange_rates : List (Pair × Quote)) (effective_rates : EffMap)
    (start_currency : String) (max_cycle_length : ℕ) (min_profit : ℚ) : List CycleInfo :=
  if exchange_rates = [] then []
  else
    let currencies := currenciesOf exchange_rates
    let _valid_pairs := exchange_rates.filter (fun pq => pq.2.spread ≤ 1 / 1000)
    let profitable_cycles :=
      dfs effective_rates currencies start_currency max_cycle_length min_profit
        start_currency [] [] 0
    List.insertionSort (fun a b => b.effective_profit ≤ a.effective_profit) profitable_cycles

/-- The synthetic inverse quote built in `fetch_exchange_rates_parallel`
(`src/trader.py` lines 211-218): bid and ask are flipped and inverted, the
spread becomes `spread / (bid·ask)`, the timestamp is inherited and the entry
is marked synthetic. -/
def invQuote (result : Quote) : Quote :=
  { bid := 1 / result.ask
    ask := 1 / result.bid
    mid := 1 / result.mid
    spread := result.spread / (result.bid * result.ask)
    timestamp := result.timestamp
    synthetic := true }

/-- The rate book built by `fetch_exchange_rates_parallel` (`trader.py` lines
190-221) from the per-pair fetch results (listed in completion order; a `none`
result is a failed fetch and is dropped).  After storing a successful direct
quote, a synthetic inverse entry is added when the inverse pair is neither
already in the book nor a catalog pair.  The rate-history / volatility updates
of lines 199-206 touch only fields unused by the rate books and are omitted. -/
def buildStep (valid_pairs : List Pair) (rates : List (Pair × Quote))
    (pr : Pair × Option Quote) : List (Pair × Quote) :=
  match pr with
  | (_, none) => rates
  | ((base, quot), some result) =>
    let rates1 := dinsert rates (base, quot) result
    let inverse_pair := (quot, base)
    if dcontains rates1 inverse_pair = false ∧ inverse_pair ∉ valid_pairs then
      dinsert rates1 inverse_pair (invQuote result)
    else rates1

def buildRates (valid_pairs : List Pair) (results : List (Pair × Option Quote)) :
    List (Pair × Quote) :=
  results.foldl (buildStep valid_pairs) []

/-- The loop deriving effective rates (`trader.py` lines 226-233): every entry
`(base, quot) ↦ data` of the rate book writes `eff[(base, quot)] = data.ask`,
and, when `(quot, base)` is also a key of the (full) rate book, overwrites
`eff[(quot, base)] = 1 / data.bid`. -/
def derivGo (full : List (Pair × Quote)) : List (Pair × Quote) → EffMap → EffMap
  | [], eff => eff
  | ((base, quot), data) :: rest, eff =>
    let eff1 := dinsert eff (base, quot) data.ask
    let eff2 := if dcontains full (quot, base) then dinsert eff1 (quot, base) (1 / data.bid)
      else eff1
    derivGo full rest eff2

/-- Effective-rate derivation of `fetch_exchange_rates_parallel`
(`trader.py` lines 225-233), iterating over the full rate book. -/
def deriveEffective (rates : List (Pair × Quote)) : EffMap :=
  derivGo rates rates []

/-- The snapshot operation `fetch_exchange_rates_parallel` (`trader.py` lines
167-236), as a function of the fetch results: returns the rate book and the
effective-rate book it stores in `self.exchange_rates` / `self.effective_rates`. -/
def fetch_exchange_rates_model (valid_pairs : List Pair)
    (results : List (Pair × Option Quote)) : List (Pair × Quote) × EffMap :=
  let rates := buildRates valid_pairs results
  (rates, deriveEffective rates)

/-- A trade record as appended to the performance tracker
(`trader.py` lines 329-334 and 540-545). -/
structure TradeRecord where
  timestamp : ℕ
  expected_profit : ℚ
  actual_profit : ℚ
  slippage : ℚ
deriving DecidableEq, Repr

/-- The mutable trader state touched by trade recording: the performance
tracker's append-only trade list and the consecutive-loss counter. -/
structure TraderState where
  performance : List TradeRecord
  consecutive_losses : ℕ
deriving DecidableEq, Repr

/-- The fill data carried by a broker order response under
`orderFillTransaction` (`trader.py` lines 297-299). -/
structure Fill where
  price : ℚ
  units : ℚ
deriving DecidableEq, Repr

/-- A broker order response; `orderFillTransaction` may be absent, in which
case `trader.py` line 298-299 defaults price and units to 0. -/
structure OrderResult where
  orderFillTransaction : Option Fill
deriving DecidableEq, Repr

/-- The broker interface used by `execute_arbitrage_cycle`, as a deterministic
oracle: `get_current_price` and `place_order` keyed by the instrument string
`BASE_QUOTE`.  (The concrete `api/oanda_api.py` client is outside `src/`; the
oracle captures exactly the result values the trader consumes.) -/
structure ApiModel where
  get_current_price : String → Option Quote
  place_order : String → ℚ → Option OrderResult

/-- One leg record appended to `results['trades']`
(`trader.py` lines 312-319). -/
structure LegRecord where
  instrument : String
  units : ℚ
  price : ℚ
  from_currency : String
  to_currency : String
  amount : ℚ
deriving DecidableEq, Repr

/-- Outcome of the per-leg loop of `execute_arbitrage_cycle`: either an abort
with the error message of the failing check and the legs recorded so far, or
completion with the final amount and all leg records. -/
inductive LegOutcome where
  | failed (msg : String) (trades : List LegRecord)
  | done (final_amount : ℚ) (trades : List LegRecord)
deriving DecidableEq, Repr

/-- The per-leg loop of `execute_arbitrage_cycle` (`trader.py` lines 258-321):
flow-invariant check, re-price, unit computation (`USD` source keeps the
amount, otherwise divide by mid; absolute value), order submission, fill
validation, then advance the running currency and amount. -/
def execLegs (api : ApiModel) : List Pair → String → ℚ → List LegRecord → LegOutcome
  | [], _, current_amount, acc => .done current_amount acc
  | (from_curr, to_curr) :: rest, current_currency, current_amount, acc =>
    if from_curr ≠ current_currency then .failed "Currency mismatch in trade sequence" acc
    else
      let instrument := from_curr ++ "_" ++ to_curr
      match api.get_current_price instrument with
      | none => .failed ("Price data unavailable for " ++ instrument) acc
      | some price_data =>
        let units0 := if from_curr = "USD" then current_amount
          else current_amount / price_data.mid
        let units := |units0|
        match api.place_order instrument units with
        | none => .failed ("Order failed for " ++ instrument) acc
        | some order_result =>
          let executed_price := (order_result.orderFillTransaction.map Fill.price).getD 0
          let executed_units := (order_result.orderFillTransaction.map Fill.units).getD 0
          if executed_price ≤ 0 ∨ executed_units = 0 then .failed "Invalid execution details" acc
          else
            let new_amount := executed_units * executed_price
            execLegs api rest to_curr new_amount
              (acc ++ [{ instrument := instrument, units := executed_units,
                         price := executed_price, from_currency := from_curr,
                         to_currency := to_curr, amount := new_amount }])

/-- The results dictionary returned by `execute_arbitrage_cycle`
(`trader.py` lines 247-252, 261-305, 324-326).  `current_amount` is set once
at construction and never updated, as in the source; the final fields are only
present on success. -/
structure ExecResults where
  success : Bool
  trades : List LegRecord
  starting_amount : ℚ
  current_amount : ℚ
  error : Option String
  final_amount : Option ℚ
  profit : Option ℚ
  profit_percentage : Option ℚ
deriving DecidableEq, Repr

/-- Model of `execute_arbitrage_cycle` (`trader.py` lines 238-343), threading the
trader state (performance ledger, consecutive-loss counter) explicitly.
`now` stands for `datetime.now()`.  On any leg failure the function returns
early with `success = False` and the state untouched; on completion it appends
a TradeRecord and resets or increments `consecutive_losses` according to the
sign of the profit.  (With an empty cycle the source would raise an
IndexError at line 255; the model defaults the starting currency.) -/
def execute_arbitrage_cycle (api : ApiModel) (cycle : CycleInfo) (amount : ℚ) (now : ℕ)
    (st : TraderState) : ExecResults × TraderState :=
  let cycle_pairs := cycle.pairs
  let expected_profit := cycle.effective_profit
  match execLegs api cycle_pairs (cycle_pairs.getD 0 ("", "")).1 amount [] with
  | .failed msg trades =>
    ({ success := false, trades := trades, starting_amount := amount, current_amount := amount,
       error := some msg, final_amount := none, profit := none, profit_percentage := none }, st)
  | .done final trades =>
    let profit := final - amount
    let profit_percentage := (final / amount - 1) * 100
    let record : TradeRecord :=
      { timestamp := now, expected_profit := expected_profit,
        actual_profit := profit_percentage / 100,
        slippage := expected_profit - profit_percentage / 100 }
    ({ success := true, trades := trades, starting_amount := amount, current_amount := amount,
       error := none, final_amount := some final, profit := some profit,
       profit_percentage := some profit_percentage },
     { performance := st.performance ++ [record],
       consecutive_losses := if 0 < profit then 0 else st.consecutive_losses + 1 })

/-- The demo-mode branch of the main loop (`trader.py` lines 530-550): given
the drawn `simulated_slippage`, the actual profit is `max(0, expected − draw)`,
a TradeRecord carrying the raw draw in its `slippage` field is appended, and
`consecutive_losses` is reset or incremented on the sign of `actual_profit`. -/
def demo_record (expected_profit simulated_slippage : ℚ) (now : ℕ) (st : TraderState) :
    TraderState :=
  let actual_profit := max 0 (expected_profit - simulated_slippage)
  let st1 : TraderState :=
    { st with performance := st.performance ++
        [{ timestamp := now, expected_profit := expected_profit,
           actual_profit := actual_profit, slippage := simulated_slippage }] }
  if 0 < actual_profit then { st1 with consecutive_losses := 0 }
  else { st1 with consecutive_losses := st.consecutive_losses + 1 }

/-- The default session multipliers (`trader.py` lines 365-372; also the
defaults of `config.py`). -/
def session_multipliers_default : List (String × ℚ) :=
  [("london_ny_overlap", 6/5), ("tokyo_london_overlap", 11/10), ("london", 1),
   ("new_york", 1), ("tokyo", 4/5), ("low_liquidity", 1/2)]

/-- Model of `calculate_position_size` (`trader.py` lines 345-394) under the default
configuration, as a function of the account balance returned by
`get_balance`, the current market-session string and the consecutive-loss
counter.  A session string absent from the multiplier table (such as the
initial `"unknown"`) falls back to factor 1. -/
def calculate_position_size (account_balance : ℚ) (market_session : String)
    (consecutive_losses : ℕ) (cycle_quality : ℚ) : ℚ :=
  let risk_per_trade : ℚ :=
    if account_balance < 1000 then 1/100
    else if account_balance < 10000 then 2/100
    else 3/100
  let session_factor := (dlookup session_multipliers_default market_session).getD 1
  let quality_factor := min (max (cycle_quality * 10) (1/2)) 2
  let confidence_factor := max (1/2) (1 - (consecutive_losses * (2/10)))
  let position_size := account_balance * risk_per_trade * session_factor *
    quality_factor * confidence_factor
  let position_size1 := max position_size 100
  min position_size1 (account_balance * (1/10))

/-- The balance tier of spec §4.5 step 2: 1% below 1000, 2% below 10000,
3% otherwise.  Stated from the spec's words for the refinement claim C9. -/
def spec_tier (balance : ℚ) : ℚ :=
  if balance < 1000 then 1/100 else if balance < 10000 then 2/100 else 3/100

/-- The position-size formula exactly as claim C9 states it:
`min(max(b · tier(b) · s · clamp(10·q0, 0.5, 2.0) · max(0.5, 1 − 0.2·n), 100), 0.1·b)`.
Stated from the spec's words, to be compared with `calculate_position_size`. -/
def spec_position_size (balance s : ℚ) (n : ℕ) (q0 : ℚ) : ℚ :=
  min (max (balance * spec_tier balance * s * (min (max (10 * q0) (1/2)) 2) *
    (max (1/2) (1 - (2/10) * n))) 100) ((1/10) * balance)

/-- Model of `get_recent_trades` (`src/utils/performance.py` lines 45-55):
`trades[-count:]` when at least `count` trades exist, else the whole list.
For `count = 0` Python's `trades[-0:]` is the whole list. -/
def get_recent_trades (trades : List TradeRecord) (count : ℕ) : List TradeRecord :=
  if count ≤ trades.length then
    (if count = 0 then trades else trades.drop (trades.length - count))
  else trades

/-- Model of `check_circuit_breakers` (`trader.py` lines 396-421), as a function of the
counters, the balances (`current_balance` being what `get_balance` returns)
and the recorded trades.  The slippage gate averages over
`get_recent_trades 3` whenever that list is non-empty. -/
def check_circuit_breakers (consecutive_losses max_consecutive_losses : ℕ)
    (starting_balance current_balance daily_loss_limit : ℚ)
    (trades : List TradeRecord) : Bool :=
  if max_consecutive_losses ≤ consecutive_losses then false
  else
    let daily_loss := starting_balance - current_balance
    if daily_loss_limit < daily_loss then false
    else
      let recent_trades := get_recent_trades trades 3
      if recent_trades ≠ [] then
        let avg_slippage := ((recent_trades.map (fun t => t.slippage)).sum : ℚ) /
          recent_trades.length
        if 3/1000 < avg_slippage then false else true
      else true

/-- The metrics dictionary of `calculate_metrics`
(`src/utils/performance.py` lines 57-107). -/
structure Metrics where
  total_trades : ℕ
  profitable_trades : ℕ
  loss_trades : ℕ
  win_rate : ℚ
  avg_profit : ℚ
  avg_loss : ℚ
  avg_slippage : ℚ
  total_profit : ℚ
deriving DecidableEq, Repr

/-- Model of `calculate_metrics` (`performance.py` lines 57-107).  Every record carries
all keys, so the `.get(…, 0)` defaults never fire. -/
def calculate_metrics (trades : List TradeRecord) : Metrics :=
  if trades = [] then
    { total_trades := 0, profitable_trades := 0, loss_trades := 0, win_rate := 0,
      avg_profit := 0, avg_loss := 0, avg_slippage := 0, total_profit := 0 }
  else
    let total_trades := trades.length
    let profitable_trades := (trades.filter (fun t => 0 < t.actual_profit)).length
    let loss_trades := total_trades - profitable_trades
    let win_rate : ℚ := if 0 < total_trades then (profitable_trades : ℚ) / total_trades else 0
    let profits := (trades.filter (fun t => 0 < t.actual_profit)).map (fun t => t.actual_profit)
    let losses := (trades.filter (fun t => t.actual_profit ≤ 0)).map (fun t => t.actual_profit)
    let avg_profit := if profits ≠ [] then profits.sum / profits.length else 0
    let avg_loss := if losses ≠ [] then losses.sum / losses.length else 0
    let slippages := trades.map (fun t => t.slippage)
    let avg_slippage := if slippages ≠ [] then slippages.sum / slippages.length else 0
    let total_profit := (trades.map (fun t => t.actual_profit)).sum
    { total_trades := total_trades, profitable_trades := profitable_trades,
      loss_trades := loss_trades, win_rate := win_rate, avg_profit := avg_profit,
      avg_loss := avg_loss, avg_slippage := avg_slippage, total_profit := total_profit }

/-- A concrete well-formed quote used by the C7 witness. -/
def qC7 : Quote := ⟨1, 2, 3/2, 1, 5, false⟩

/-- Concrete broker oracle for the C4 counterexample: both instruments are
priced, but only the first leg's order is accepted (fill price 1, 90 units);
the second leg's order is rejected. -/
def cexApi4 : ApiModel :=
  { get_current_price := fun instrument =>
      if instrument = "USD_EUR" ∨ instrument = "EUR_USD" then some ⟨1, 1, 1, 0, 0, false⟩
      else none
    place_order := fun instrument _ =>
      if instrument = "USD_EUR" then some ⟨some ⟨1, 90⟩⟩ else none }

/-- A two-leg USD cycle used by the execution counterexamples and witnesses. -/
def cyc4 : CycleInfo := ⟨[("USD", "EUR"), ("EUR", "USD")], 101/100, 1/100⟩

/-- A broker oracle that fails every request, for the C4 witness. -/
def noneApi : ApiModel := ⟨fun _ => none, fun _ _ => none⟩

/-- Broker oracle whose orders always fill 120 units at price 1
(profitable two-leg execution for the C6 witness). -/
def okApi6 : ApiModel :=
  ⟨fun _ => some ⟨1, 1, 1, 0, 0, false⟩, fun _ _ => some ⟨some ⟨1, 120⟩⟩⟩

/-- Broker oracle whose orders always fill 90 units at price 1
(lossy two-leg execution for the C8 witness). -/
def okApi8 : ApiModel :=
  ⟨fun _ => some ⟨1, 1, 1, 0, 0, false⟩, fun _ _ => some ⟨some ⟨1, 90⟩⟩⟩

/-- The directed edge of index i read off a closed path, as the scoring loop
forms it: `(path[i], path[(i+1) % len(path)])`. -/
def pairAt (path : List String) (i : ℕ) : Pair :=
  (path.getD i "", path.getD ((i + 1) % path.length) "")

instance : IsTotal CycleInfo (fun a b => b.effective_profit ≤ a.effective_profit) :=
  ⟨fun a b => le_total b.effective_profit a.effective_profit⟩

instance : IsTrans CycleInfo (fun a b => b.effective_profit ≤ a.effective_profit) :=
  ⟨fun _ _ _ hab hbc => le_trans hbc hab⟩

/-- A placeholder quote for exchange-rate books whose quote values are
irrelevant to the claim under test. -/
def qdum : Quote := ⟨1, 1, 1, 0, 0, false⟩

/-- The triangle snapshot of spec §8 scenario 1 (exchange-rate book). -/
def ex3 : List (Pair × Quote) :=
  [(("USD", "EUR"), qdum), (("EUR", "GBP"), qdum), (("GBP", "USD"), qdum)]

/-- The triangle snapshot of spec §8 scenario 1 (effective rates). -/
def eff3 : EffMap :=
  [(("USD", "EUR"), 9/10), (("EUR", "GBP"), 9/10), (("GBP", "USD"), 5/4)]

/-- The single cycle found on the spec §8 scenario 1 triangle. -/
def cyc3 : CycleInfo :=
  ⟨[("USD", "EUR"), ("EUR", "GBP"), ("GBP", "USD")], 81/80, 61/5000⟩

/-- The two-pair snapshot A↔B, A↔C used to refute the stated C2
(exchange-rate book). -/
def ex4 : List (Pair × Quote) :=
  [(("A", "B"), qdum), (("B", "A"), qdum), (("A", "C"), qdum), (("C", "A"), qdum)]

/-- The two-pair snapshot A↔B, A↔C used to refute the stated C2
(effective rates, all equal to 2). -/
def eff4 : EffMap := [(("A", "B"), 2), (("B", "A"), 2), (("A", "C"), 2), (("C", "A"), 2)]

/-- The net effect of one `derivGo` iteration (entry `e`, full rate book
`full`) on the effective-rate entry of key `x`: the reverse-direction write
`eff[e.1.swap] = 1/e.2.bid` (taken when `e.1.swap` is a key of the book) comes
second and therefore wins over the direct write `eff[e.1] = e.2.ask`. -/
def iterWrite (full : List (Pair × Quote)) (e : Pair × Quote) (x : Pair) : Option ℚ :=
  if x = e.1.swap ∧ dcontains full x then some (1 / e.2.bid)
  else if x = e.1 then some e.2.ask
  else none

/-- The value written last to key `x` while `derivGo` traverses `l`
(later entries override earlier ones). -/
def lastWrite (full : List (Pair × Quote)) : List (Pair × Quote) → Pair → Option ℚ
  | [], _ => none
  | e :: rest, x => (lastWrite full rest x).or (iterWrite full e x)

/-- Catalog quote for the pair (A,B): bid 1/2, ask 3. -/
def qC3a : Quote := ⟨1/2, 3, 1, 0, 0, false⟩

/-- Catalog quote for the reverse pair (B,A): bid 1/2, ask 2. -/
def qC3b : Quote := ⟨1/2, 2, 1, 0, 0, false⟩

/-- A catalog containing both orientations of the same pair. -/
def vpC3 : List Pair := [("A", "B"), ("B", "A")]

/-- Fetch results where both orientations succeed. -/
def resC3 : List (Pair × Option Quote) := [(("A", "B"), some qC3a), (("B", "A"), some qC3b)]

/-- Fetch results where the reverse orientation's fetch failed. -/
def resC3w : List (Pair × Option Quote) := [(("A", "B"), some qC3a), (("B", "A"), none)]

theorem dlookup_nil {κ ν : Type} [DecidableEq κ] (k : κ) :
    dlookup ([] : List (κ × ν)) k = none := rfl

theorem dlookup_cons {κ ν : Type} [DecidableEq κ] (kv : κ × ν) (m : List (κ × ν)) (k : κ) :
    dlookup (kv :: m) k = if kv.1 = k then some kv.2 else dlookup m k := by
  by_cases h : kv.1 = k <;> simp [dlookup, List.find?, h]

theorem dlookup_dinsert {κ ν : Type} [DecidableEq κ] (m : List (κ × ν)) (k x : κ) (v : ν) :
    dlookup (dinsert m k v) x = if x = k then some v else dlookup m x := by
  induction m with
  | nil =>
    by_cases h : x = k
    · subst h; simp [dinsert, dlookup_cons]
    · have h2 : ¬k = x := fun hh => h hh.symm
      simp [dinsert, dlookup_cons, h, h2, dlookup_nil]
  | cons kv rest ih =>
    obtain ⟨a, b⟩ := kv
    by_cases hk : a = k
    · subst hk
      by_cases hx : x = a
      · subst hx; simp [dinsert, dlookup_cons]
      · have h2 : ¬a = x := fun hh => hx hh.symm
        simp [dinsert, dlookup_cons, hx, h2]
    · by_cases hx : x = k
      · subst hx
        have h2 : ¬a = x := fun hh => hk hh
        simp [dinsert, hk, dlookup_cons, h2, ih]
      · simp [dinsert, hk, dlookup_cons, hx, ih]

theorem dcontains_iff {κ ν : Type} [DecidableEq κ] (m : List (κ × ν)) (k : κ) :
    dcontains m k = true ↔ k ∈ m.map Prod.fst := by
  induction m with
  | nil => simp [dcontains]
  | cons kv rest ih =>
    obtain ⟨a, b⟩ := kv
    by_cases h : a = k
    · subst h; simp [dcontains]
    · have h2 : ¬k = a := fun hh => h hh.symm
      simp only [dcontains, List.any_cons] at ih ⊢
      simp [h, h2, ih]

theorem dlookup_isSome_iff {κ ν : Type} [DecidableEq κ] (m : List (κ × ν)) (k : κ) :
    (dlookup m k).isSome = true ↔ k ∈ m.map Prod.fst := by
  induction m with
  | nil => simp [dlookup_nil]
  | cons kv rest ih =>
    obtain ⟨a, b⟩ := kv
    rw [dlookup_cons]
    by_cases h : a = k
    · subst h; simp
    · have h2 : ¬k = a := fun hh => h hh.symm
      simpa [h, h2] using ih

/-- Claim C7: for a source quote q with 0 < bid ≤ mid ≤ ask (and the Quote
invariant spread = ask − bid of spec §3), the synthetic inverse quote has
bid' = 1/ask, ask' = 1/bid, mid' = 1/mid, spread' = spread/(bid·ask); exactly,
bid'·ask = 1, ask'·bid = 1, spread' = ask' − bid', 0 < bid' ≤ mid' ≤ ask', and
inverting the synthetic quote recovers the original quote's numeric fields and
timestamp. -/
theorem C7_synthetic_inverse_quote (q : Quote) (hb : 0 < q.bid) (hbm : q.bid ≤ q.mid)
    (hma : q.mid ≤ q.ask) (hs : q.spread = q.ask - q.bid) :
    (invQuote q).bid = 1 / q.ask ∧ (invQuote q).ask = 1 / q.bid ∧
    (invQuote q).mid = 1 / q.mid ∧ (invQuote q).spread = q.spread / (q.bid * q.ask) ∧
    (invQuote q).bid * q.ask = 1 ∧ (invQuote q).ask * q.bid = 1 ∧
    (invQuote q).spread = (invQuote q).ask - (invQuote q).bid ∧
    0 < (invQuote q).bid ∧ (invQuote q).bid ≤ (invQuote q).mid ∧
    (invQuote q).mid ≤ (invQuote q).ask ∧
    (invQuote (invQuote q)).bid = q.bid ∧ (invQuote (invQuote q)).ask = q.ask ∧
    (invQuote (invQuote q)).mid = q.mid ∧ (invQuote (invQuote q)).spread = q.spread ∧
    (invQuote (invQuote q)).timestamp = q.timestamp := by
  have hm : 0 < q.mid := lt_of_lt_of_le hb hbm
  have ha : 0 < q.ask := lt_of_lt_of_le hm hma
  have hbne : q.bid ≠ 0 := ne_of_gt hb
  have hane : q.ask ≠ 0 := ne_of_gt ha
  have hmne : q.mid ≠ 0 := ne_of_gt hm
  refine ⟨rfl, rfl, rfl, rfl, ?_, ?_, ?_, ?_, ?_, ?_, ?_, ?_, ?_, ?_, rfl⟩
  · show 1 / q.ask * q.ask = 1
    field_simp
  · show 1 / q.bid * q.bid = 1
    field_simp
  · show q.spread / (q.bid * q.ask) = 1 / q.bid - 1 / q.ask
    rw [hs]; field_simp
  · show 0 < 1 / q.ask
    positivity
  · show 1 / q.ask ≤ 1 / q.mid
    exact one_div_le_one_div_of_le hm hma
  · show 1 / q.mid ≤ 1 / q.bid
    exact one_div_le_one_div_of_le hb hbm
  · show 1 / (1 / q.bid) = q.bid
    rw [one_div_one_div]
  · show 1 / (1 / q.ask) = q.ask
    rw [one_div_one_div]
  · show 1 / (1 / q.mid) = q.mid
    rw [one_div_one_div]
  · show (q.spread / (q.bid * q.ask)) / (1 / q.ask * (1 / q.bid)) = q.spread
    field_simp
    left
    ring

/-- Witness for C7 at the concrete quote bid 1, mid 3/2, ask 2, spread 1. -/
theorem C7_witness :
    (invQuote qC7).bid = 1 / qC7.ask ∧ (invQuote qC7).ask = 1 / qC7.bid ∧
    (invQuote qC7).mid = 1 / qC7.mid ∧ (invQuote qC7).spread = qC7.spread / (qC7.bid * qC7.ask) ∧
    (invQuote qC7).bid * qC7.ask = 1 ∧ (invQuote qC7).ask * qC7.bid = 1 ∧
    (invQuote qC7).spread = (invQuote qC7).ask - (invQuote qC7).bid ∧
    0 < (invQuote qC7).bid ∧ (invQuote qC7).bid ≤ (invQuote qC7).mid ∧
    (invQuote qC7).mid ≤ (invQuote qC7).ask ∧
    (invQuote (invQuote qC7)).bid = qC7.bid ∧ (invQuote (invQuote qC7)).ask = qC7.ask ∧
    (invQuote (invQuote qC7)).mid = qC7.mid ∧ (invQuote (invQuote qC7)).spread = qC7.spread ∧
    (invQuote (invQuote qC7)).timestamp = qC7.timestamp :=
  C7_synthetic_inverse_quote qC7 (by norm_num [qC7]) (by norm_num [qC7])
    (by norm_num [qC7]) (by norm_num [qC7])

/-- Claim C9: `calculate_position_size` computes
`min(max(balance · tier(balance) · s · clamp(10·q0, 0.5, 2.0) ·
max(0.5, 1 − 0.2·n), 100), 0.1·balance)` with the balance tiers 1%/2%/3%
and s the session multiplier of the current session. -/
theorem C9_position_size_formula (b : ℚ) (sess : String) (n : ℕ) (q0 : ℚ) (hb : 0 < b) :
    calculate_position_size b sess n q0 =
      spec_position_size b ((dlookup session_multipliers_default sess).getD 1) n q0 := by
  unfold calculate_position_size spec_position_size spec_tier
  ring_nf

/-- Witness for C9 at balance 50000, session london_ny_overlap, zero losses,
cycle quality 2 (spec §8 scenario 6). -/
theorem C9_witness :
    calculate_position_size 50000 "london_ny_overlap" 0 2 =
      spec_position_size 50000
        ((dlookup session_multipliers_default "london_ny_overlap").getD 1) 0 2 :=
  C9_position_size_formula 50000 "london_ny_overlap" 0 2 (by norm_num)

/-- Claim C10: `calculate_metrics` of the empty trade list is the all-zero
metrics record, and for every trade list the profitable and losing counts
partition the total, the win rate lies in [0,1], and the total profit is the
sum of the actual profits. -/
theorem C10_metrics_safety :
    calculate_metrics [] = ⟨0, 0, 0, 0, 0, 0, 0, 0⟩ ∧
    ∀ trades : List TradeRecord,
      (calculate_metrics trades).profitable_trades + (calculate_metrics trades).loss_trades
        = (calculate_metrics trades).total_trades ∧
      0 ≤ (calculate_metrics trades).win_rate ∧
      (calculate_metrics trades).win_rate ≤ 1 ∧
      (calculate_metrics trades).total_profit
        = (trades.map (fun t => t.actual_profit)).sum := by
  refine ⟨rfl, fun trades => ?_⟩
  by_cases h : trades = []
  · subst h
    norm_num [calculate_metrics]
  · have hlen : 0 < trades.length := List.length_pos.mpr h
    have hfilter : (trades.filter (fun t => 0 < t.actual_profit)).length ≤ trades.length :=
      List.length_filter_le _ _
    simp only [calculate_metrics, if_neg h]
    refine ⟨Nat.add_sub_cancel' hfilter, ?_, ?_, trivial⟩
    · rw [if_pos hlen]
      positivity
    · rw [if_pos hlen, div_le_one (by exact_mod_cast hlen)]
      exact_mod_cast hfilter

theorem get_recent_trades_eq_nil_iff (trades : List TradeRecord) :
    get_recent_trades trades 3 = [] ↔ trades = [] := by
  unfold get_recent_trades
  by_cases h : 3 ≤ trades.length
  · rw [if_pos h, if_neg (by omega)]
    rw [List.drop_eq_nil_iff]
    constructor
    · intro hle
      have : trades.length = 0 := by omega
      exact List.length_eq_zero.mp this
    · intro he
      subst he
      simp
  · rw [if_neg h]

/-- Claim C5 (amended): with the consecutive-loss and daily-loss gates
passing, `check_circuit_breakers` blocks exactly when at least one TradeRecord
exists and the mean slippage over the last `min(3, n)` records exceeds 0.003;
with zero records the slippage gate passes.  (The source gate fires on any
non-empty recent list, not only when 3 records exist.) -/
theorem C5_slippage_gate (n maxn : ℕ) (sb cb lim : ℚ) (trades : List TradeRecord)
    (h1 : n < maxn) (h2 : sb - cb ≤ lim) :
    (check_circuit_breakers n maxn sb cb lim trades = false ↔
      trades ≠ [] ∧ 3/1000 <
        ((get_recent_trades trades 3).map (fun t => t.slippage)).sum /
          ((get_recent_trades trades 3).length : ℚ)) := by
  unfold check_circuit_breakers
  rw [if_neg (by omega), if_neg (not_lt.mpr h2)]
  by_cases hr : get_recent_trades trades 3 = []
  · have ht : trades = [] := (get_recent_trades_eq_nil_iff trades).mp hr
    subst ht
    simp [get_recent_trades]
  · have ht : trades ≠ [] := fun he => hr ((get_recent_trades_eq_nil_iff trades).mpr he)
    rw [if_pos hr]
    by_cases hs : 3/1000 < ((get_recent_trades trades 3).map (fun t => t.slippage)).sum /
        ((get_recent_trades trades 3).length : ℚ)
    · simp [hs, ht]
    · simp [hs]

/-- Counterexample to C5 as stated: a single recorded trade (fewer than 3)
with slippage 0.01 makes `check_circuit_breakers` return False even though the
consecutive-loss gate (0 < 3) and the daily-loss gate (0 ≤ 500) pass, so the
slippage gate does not pass whenever fewer than 3 records exist. -/
theorem C5_counterexample :
    check_circuit_breakers 0 3 10000 10000 500 [⟨0, 0, 0, 1/100⟩] = false ∧
    ([(⟨0, 0, 0, 1/100⟩ : TradeRecord)] : List TradeRecord).length < 3 := by
  constructor
  · simp [check_circuit_breakers, get_recent_trades]
    norm_num
  · simp

/-- Witness for C5 at two records of slippage 0.01 each: the gate blocks. -/
theorem C5_witness :
    check_circuit_breakers 1 3 10000 9990 500
      [⟨0, 0, 0, 1/100⟩, ⟨1, 0, 0, 1/100⟩] = false := by
  rw [C5_slippage_gate 1 3 10000 9990 500 [⟨0, 0, 0, 1/100⟩, ⟨1, 0, 0, 1/100⟩]
    (by omega) (by norm_num)]
  constructor
  · simp
  · simp [get_recent_trades]
    norm_num

/-- Claim C4 (amended): whenever `execute_arbitrage_cycle` aborts on a failed
leg (rejected order, invalid fill, missing price or flow break) it returns
`success = False` and leaves the trader state untouched: `consecutive_losses`
is not incremented and no TradeRecord is appended, regardless of how many
earlier legs succeeded. -/
theorem C4_failed_leg_keeps_state (api : ApiModel) (cycle : CycleInfo) (amount : ℚ)
    (now : ℕ) (st : TraderState)
    (h : (execute_arbitrage_cycle api cycle amount now st).1.success = false) :
    (execute_arbitrage_cycle api cycle amount now st).2 = st := by
  rcases hleg : execLegs api cycle.pairs (cycle.pairs.getD 0 ("", "")).1 amount []
    with ⟨msg, trades⟩ | ⟨final, trades⟩
  · simp only [execute_arbitrage_cycle]
    rw [hleg]
  · exfalso
    simp only [execute_arbitrage_cycle] at h
    rw [hleg] at h
    simp at h

/-- Counterexample to C4 as stated: the first leg succeeds (one leg record),
the second leg's order returns None, yet `consecutive_losses` stays 0 (the
claim says it is incremented) and no TradeRecord is appended (the claim says
one is appended when at least one earlier leg succeeded). -/
theorem C4_counterexample :
    (execute_arbitrage_cycle cexApi4 cyc4 100 7 ⟨[], 0⟩).1.success = false ∧
    (execute_arbitrage_cycle cexApi4 cyc4 100 7 ⟨[], 0⟩).1.trades.length = 1 ∧
    (execute_arbitrage_cycle cexApi4 cyc4 100 7 ⟨[], 0⟩).1.error
      = some "Order failed for EUR_USD" ∧
    (execute_arbitrage_cycle cexApi4 cyc4 100 7 ⟨[], 0⟩).2.performance = [] ∧
    (execute_arbitrage_cycle cexApi4 cyc4 100 7 ⟨[], 0⟩).2.consecutive_losses = 0 := by
  simp [execute_arbitrage_cycle, execLegs, cexApi4, cyc4]
  norm_num

/-- Witness for C4 at a concrete aborted execution. -/
theorem C4_witness :
    (execute_arbitrage_cycle noneApi cyc4 50 0 ⟨[], 3⟩).2 = ⟨[], 3⟩ :=
  C4_failed_leg_keeps_state noneApi cyc4 50 0 ⟨[], 3⟩
    (by simp [execute_arbitrage_cycle, execLegs, noneApi, cyc4])

/-- Claim C6: after any TradeRecord insertion — from a completed real
execution with positive starting amount, or from a demo-mode simulation —
`consecutive_losses` is 0 exactly when the inserted record's actual_profit is
positive, and otherwise equals its previous value plus one. -/
theorem C6_consecutive_losses :
    (∀ (api : ApiModel) (cycle : CycleInfo) (amount : ℚ) (now : ℕ) (st : TraderState),
      0 < amount →
      (execute_arbitrage_cycle api cycle amount now st).1.success = true →
      ∃ r, (execute_arbitrage_cycle api cycle amount now st).2.performance
             = st.performance ++ [r] ∧
        ((execute_arbitrage_cycle api cycle amount now st).2.consecutive_losses = 0 ↔
          0 < r.actual_profit) ∧
        (r.actual_profit ≤ 0 →
          (execute_arbitrage_cycle api cycle amount now st).2.consecutive_losses
            = st.consecutive_losses + 1)) ∧
    (∀ (expected d : ℚ) (now : ℕ) (st : TraderState),
      ∃ r, (demo_record expected d now st).performance = st.performance ++ [r] ∧
        ((demo_record expected d now st).consecutive_losses = 0 ↔ 0 < r.actual_profit) ∧
        (r.actual_profit ≤ 0 →
          (demo_record expected d now st).consecutive_losses
            = st.consecutive_losses + 1)) := by
  constructor
  · intro api cycle amount now st hamt hsucc
    rcases hleg : execLegs api cycle.pairs (cycle.pairs.getD 0 ("", "")).1 amount []
      with ⟨msg, trades⟩ | ⟨final, trades⟩
    · exfalso
      simp only [execute_arbitrage_cycle] at hsucc
      rw [hleg] at hsucc
      simp at hsucc
    · simp only [execute_arbitrage_cycle]
      rw [hleg]
      dsimp only
      have hact : (final / amount - 1) * 100 / 100 = final / amount - 1 :=
        mul_div_cancel_right₀ _ (by norm_num)
      have key : 0 < final - amount ↔ 0 < final / amount - 1 := by
        rw [sub_pos, sub_pos, lt_div_iff₀ hamt, one_mul]
      refine ⟨_, rfl, ?_, ?_⟩
      · by_cases hp : 0 < final - amount
        · rw [if_pos hp]
          simp only [hact]
          simpa using key.mp hp
        · rw [if_neg hp]
          simp only [hact]
          constructor
          · intro h0
            exact absurd h0 (Nat.succ_ne_zero _)
          · intro hx
            exact absurd hp (fun hh => hh (key.mpr hx))
      · intro hle
        simp only [hact] at hle
        rw [if_neg (fun hp => absurd (key.mp hp) (not_lt.mpr hle))]
  · intro expected d now st
    refine ⟨{ timestamp := now, expected_profit := expected,
              actual_profit := max 0 (expected - d), slippage := d }, ?_, ?_, ?_⟩
    · by_cases hp : 0 < max 0 (expected - d)
      · simp only [demo_record, if_pos hp]
      · simp only [demo_record, if_neg hp]
    · by_cases hp : 0 < max 0 (expected - d)
      · simp only [demo_record, if_pos hp]
        simpa using hp
      · simp only [demo_record, if_neg hp]
        constructor
        · intro h0
          exact absurd h0 (Nat.succ_ne_zero _)
        · intro hx
          exact absurd hx hp
    · intro hle
      have hp : ¬0 < max 0 (expected - d) := not_lt.mpr hle
      simp only [demo_record, if_neg hp]

/-- Witness for C6 at a concrete completed execution with amount 100. -/
theorem C6_witness :
    ∃ r, (execute_arbitrage_cycle okApi6 cyc4 100 0 ⟨[], 2⟩).2.performance
           = (⟨[], 2⟩ : TraderState).performance ++ [r] ∧
      ((execute_arbitrage_cycle okApi6 cyc4 100 0 ⟨[], 2⟩).2.consecutive_losses = 0 ↔
        0 < r.actual_profit) ∧
      (r.actual_profit ≤ 0 →
        (execute_arbitrage_cycle okApi6 cyc4 100 0 ⟨[], 2⟩).2.consecutive_losses
          = (⟨[], 2⟩ : TraderState).consecutive_losses + 1) :=
  C6_consecutive_losses.1 okApi6 cyc4 100 0 ⟨[], 2⟩ (by norm_num)
    (by simp [execute_arbitrage_cycle, execLegs, okApi6, cyc4]; norm_num)

/-- Claim C8 (amended): a TradeRecord appended by real execution satisfies
`slippage = expected_profit − actual_profit`; in demo mode the recorded
slippage is the raw sampled draw d and `actual_profit = max(0, expected − d)`,
so the slippage law holds only when `d ≤ expected`. -/
theorem C8_slippage_accounting :
    (∀ (api : ApiModel) (cycle : CycleInfo) (amount : ℚ) (now : ℕ) (st : TraderState)
      (r : TradeRecord),
      (execute_arbitrage_cycle api cycle amount now st).2.performance
        = st.performance ++ [r] →
      r.expected_profit = cycle.effective_profit ∧
      r.slippage = r.expected_profit - r.actual_profit) ∧
    (∀ (expected d : ℚ) (now : ℕ) (st : TraderState),
      ∃ r, (demo_record expected d now st).performance = st.performance ++ [r] ∧
        r.slippage = d ∧ r.actual_profit = max 0 (expected - d) ∧
        (d ≤ expected → r.slippage = r.expected_profit - r.actual_profit)) := by
  constructor
  · intro api cycle amount now st r h
    rcases hleg : execLegs api cycle.pairs (cycle.pairs.getD 0 ("", "")).1 amount []
      with ⟨msg, trades⟩ | ⟨final, trades⟩
    · exfalso
      simp only [execute_arbitrage_cycle] at h
      rw [hleg] at h
      dsimp only at h
      have := congrArg List.length h
      simp at this
    · simp only [execute_arbitrage_cycle] at h
      rw [hleg] at h
      dsimp only at h
      have hr := List.append_cancel_left h
      have hrr : r = { timestamp := now, expected_profit := cycle.effective_profit,
                       actual_profit := (final / amount - 1) * 100 / 100,
                       slippage := cycle.effective_profit -
                         (final / amount - 1) * 100 / 100 } := by
        simpa using hr.symm
      subst hrr
      exact ⟨rfl, rfl⟩
  · intro expected d now st
    refine ⟨{ timestamp := now, expected_profit := expected,
              actual_profit := max 0 (expected - d), slippage := d },
            ?_, rfl, rfl, fun hd => ?_⟩
    · by_cases hp : 0 < max 0 (expected - d)
      · simp only [demo_record, if_pos hp]
      · simp only [demo_record, if_neg hp]
    · show d = expected - max 0 (expected - d)
      rw [max_eq_right (sub_nonneg.mpr hd)]
      ring

/-- Counterexample to C8 as stated: in demo mode with expected profit 0.001
and draw 0.002, the appended record carries slippage 0.002 while
`expected_profit − actual_profit of the record is 0.001, so
`slippage = expected_profit − actual_profit` fails for this insertion. -/
theorem C8_counterexample :
    (demo_record (1/1000) (1/500) 3 ⟨[], 0⟩).performance =
      [{ timestamp := 3, expected_profit := 1/1000, actual_profit := 0,
         slippage := 1/500 }] ∧
    ((1:ℚ)/500) ≠ 1/1000 - 0 := by
  constructor
  · simp [demo_record]
    norm_num
  · norm_num

/-- Witness for C8 at a concrete completed execution: the appended record
satisfies the slippage law. -/
theorem C8_witness :
    (⟨0, 1/100, -1/10, 11/100⟩ : TradeRecord).expected_profit = cyc4.effective_profit ∧
    (⟨0, 1/100, -1/10, 11/100⟩ : TradeRecord).slippage =
      (⟨0, 1/100, -1/10, 11/100⟩ : TradeRecord).expected_profit -
        (⟨0, 1/100, -1/10, 11/100⟩ : TradeRecord).actual_profit :=
  C8_slippage_accounting.1 okApi8 cyc4 100 0 ⟨[], 0⟩ ⟨0, 1/100, -1/10, 11/100⟩
    (by simp [execute_arbitrage_cycle, execLegs, okApi8, cyc4]; norm_num)

theorem scoreGo_some_spec (eff : EffMap) (path : List String) :
    ∀ (idxs : List ℕ) (pr0 : ℚ) (cp0 : List Pair) (pr : ℚ) (cp : List Pair),
      scoreGo eff path idxs pr0 cp0 = some (pr, cp) →
      cp = cp0 ++ idxs.map (pairAt path) ∧
      pr = pr0 * ((idxs.map (pairAt path)).map (fun p => (dlookup eff p).getD 0)).prod ∧
      ∀ p ∈ idxs.map (pairAt path), (dlookup eff p).isSome := by
  intro idxs
  induction idxs with
  | nil =>
    intro pr0 cp0 pr cp h
    simp only [scoreGo, Option.some.injEq, Prod.mk.injEq] at h
    obtain ⟨h1, h2⟩ := h
    subst h1
    subst h2
    simp
  | cons i rest ih =>
    intro pr0 cp0 pr cp h
    simp only [scoreGo] at h
    cases hl : dlookup eff (path.getD i "", path.getD ((i + 1) % path.length) "") with
    | none =>
      rw [hl] at h
      exact absurd h (by simp)
    | some rate =>
      rw [hl] at h
      obtain ⟨hcp, hpr, hmem⟩ := ih _ _ _ _ h
      refine ⟨?_, ?_, ?_⟩
      · rw [hcp]
        simp [pairAt]
      · rw [hpr]
        simp only [List.map_cons, List.prod_cons, pairAt, hl]
        simp [Option.getD]
        ring
      · intro p hp
        rw [List.map_cons] at hp
        rcases List.mem_cons.mp hp with hp1 | hp2
        · subst hp1
          show (dlookup eff (path.getD i "", path.getD ((i + 1) % path.length) "")).isSome = true
          rw [hl]
          rfl
        · exact hmem p hp2

theorem scorePath_mem (eff : EffMap) (path : List String) (minp : ℚ) (c : CycleInfo)
    (h : c ∈ scorePath eff path minp) :
    c.pairs = (List.range path.length).map (pairAt path) ∧
    (∀ p ∈ c.pairs, (dlookup eff p).isSome) ∧
    c.profit_rate = (c.pairs.map (fun p => (dlookup eff p).getD 0)).prod ∧
    c.effective_profit = c.profit_rate - 1 - (1/10000) * c.pairs.length ∧
    minp < c.effective_profit := by
  unfold scorePath at h
  cases hs : scoreGo eff path (List.range path.length) 1 [] with
  | none =>
    rw [hs] at h
    simp at h
  | some v =>
    obtain ⟨pr, cp⟩ := v
    rw [hs] at h
    dsimp only at h
    by_cases hp : minp < pr - 1 - (1/10000) * cp.length
    · rw [if_pos hp] at h
      obtain ⟨hcp, hpr, hmem⟩ := scoreGo_some_spec eff path _ 1 [] pr cp hs
      have hc : c = { pairs := cp, profit_rate := pr,
                      effective_profit := pr - 1 - (1/10000) * cp.length } := by
        simpa using h
      subst hc
      refine ⟨by simpa using hcp, ?_, ?_, rfl, hp⟩
      · intro p hpmem
        apply hmem
        have hpmem2 : p ∈ cp := hpmem
        rw [hcp] at hpmem2
        simpa using hpmem2
      · show pr = (cp.map (fun p => (dlookup eff p).getD 0)).prod
        rw [hpr, hcp]
        simp
    · rw [if_neg hp] at h
      simp at h

theorem dfs_mem_scored (eff : EffMap) (currencies : List String) (start : String)
    (maxlen : ℕ) (minp : ℚ) :
    ∀ (current : String) (path visited : List String) (depth : ℕ),
      ∀ c ∈ dfs eff currencies start maxlen minp current path visited depth,
      (∀ p ∈ c.pairs, (dlookup eff p).isSome) ∧
      c.profit_rate = (c.pairs.map (fun p => (dlookup eff p).getD 0)).prod ∧
      c.effective_profit = c.profit_rate - 1 - (1/10000) * c.pairs.length ∧
      minp < c.effective_profit := by
  intro current path visited depth
  induction current, path, visited, depth using dfs.induct eff currencies start maxlen minp with
  | case1 path visited depth hle =>
    intro c hc
    rw [dfs] at hc
    rw [dif_pos hle, if_pos rfl] at hc
    obtain ⟨_, h2, h3, h4, h5⟩ := scorePath_mem eff path minp c hc
    exact ⟨h2, h3, h4, h5⟩
  | case2 current path visited depth hle hne =>
    intro c hc
    rw [dfs, dif_pos hle, if_neg hne] at hc
    simp at hc
  | case3 current path visited depth hlt hvis =>
    intro c hc
    rw [dfs, dif_neg hlt, if_pos hvis] at hc
    simp at hc
  | case4 current path visited depth hlt hvis nv ih =>
    intro c hc
    rw [dfs, dif_neg hlt, if_neg hvis] at hc
    rw [List.mem_flatMap] at hc
    obtain ⟨next_curr, _, hcmem⟩ := hc
    by_cases hedge : (dlookup eff (current, next_curr)).isSome
    · rw [if_pos hedge] at hcmem
      exact ih next_curr c hcmem
    · rw [if_neg hedge] at hcmem
      simp at hcmem

/-- Claim C1: every cycle returned by `find_profitable_cycles` uses only edges
present in `effective_rates`, its profit ratio is the product of the effective
rates over its edges, its effective profit is `ratio − 1 − 0.0001·k` for k
edges, it beats `min_profit`, and the returned list is non-increasing in
effective profit. -/
theorem C1_cycle_scoring (ex : List (Pair × Quote)) (eff : EffMap) (start : String)
    (maxlen : ℕ) (minp : ℚ) :
    (∀ c ∈ find_profitable_cycles ex eff start maxlen minp,
      (∀ p ∈ c.pairs, (dlookup eff p).isSome) ∧
      c.profit_rate = (c.pairs.map (fun p => (dlookup eff p).getD 0)).prod ∧
      c.effective_profit = c.profit_rate - 1 - (1/10000) * c.pairs.length ∧
      minp < c.effective_profit) ∧
    List.Sorted (fun a b => b.effective_profit ≤ a.effective_profit)
      (find_profitable_cycles ex eff start maxlen minp) := by
  constructor
  · intro c hc
    by_cases hex : ex = []
    · simp [find_profitable_cycles, hex] at hc
    · simp only [find_profitable_cycles, if_neg hex] at hc
      rw [List.mem_insertionSort] at hc
      exact dfs_mem_scored eff (currenciesOf ex) start maxlen minp start [] [] 0 c hc
  · by_cases hex : ex = []
    · simp [find_profitable_cycles, hex]
    · simp only [find_profitable_cycles, if_neg hex]
      exact List.sorted_insertionSort _ _

theorem find_ex3_eval : find_profitable_cycles ex3 eff3 "USD" 3 (1/1000) = [cyc3] := by
  simp [find_profitable_cycles, ex3, eff3, qdum, cyc3, currenciesOf, dfs, scorePath,
    scoreGo, dlookup, List.find?, List.insertionSort, List.orderedInsert]
  norm_num

/-- Witness for C1 on the spec §8 scenario-1 triangle. -/
theorem C1_witness :
    (∀ p ∈ cyc3.pairs, (dlookup eff3 p).isSome) ∧
    cyc3.profit_rate = (cyc3.pairs.map (fun p => (dlookup eff3 p).getD 0)).prod ∧
    cyc3.effective_profit = cyc3.profit_rate - 1 - (1/10000) * cyc3.pairs.length ∧
    (1:ℚ)/1000 < cyc3.effective_profit :=
  (C1_cycle_scoring ex3 eff3 "USD" 3 (1/1000)).1 cyc3
    (by rw [find_ex3_eval]; exact List.mem_singleton.mpr rfl)

theorem getD_range_map {α : Type} (f : ℕ → α) (n i : ℕ) (d : α) (h : i < n) :
    ((List.range n).map f).getD i d = f i := by
  rw [List.getD_eq_getElem?_getD]
  simp [List.getElem?_map, List.getElem?_range, h]

theorem map_getD_range_self (p : List String) (d : String) :
    (List.range p.length).map (fun i => p.getD i d) = p := by
  apply List.ext_getElem
  · simp
  · intro i h1 h2
    simp only [List.getElem_map, List.getElem_range]
    rw [List.getD_eq_getElem?_getD, List.getElem?_eq_getElem h2]
    rfl

theorem dfs_mem_struct (eff : EffMap) (currencies : List String) (start : String)
    (maxlen : ℕ) (minp : ℚ) :
    ∀ (current : String) (path visited : List String) (depth : ℕ),
      path.length = depth →
      depth ≤ maxlen →
      (path = [] → current = start) →
      (∀ a, path.head? = some a → a = start) →
      (path.filter (fun v => v ≠ start)).Nodup →
      (∀ x ∈ path, x ≠ start → x ∈ visited) →
      ∀ c ∈ dfs eff currencies start maxlen minp current path visited depth,
        ∃ p : List String,
          p.length = maxlen ∧
          (∀ a, p.head? = some a → a = start) ∧
          (p.filter (fun v => v ≠ start)).Nodup ∧
          c.pairs = (List.range p.length).map (pairAt p) := by
  intro current path visited depth
  induction current, path, visited, depth using dfs.induct eff currencies start maxlen minp with
  | case1 path visited depth hle =>
    intro hlen hdep hemp hhead hnodup hvisit c hc
    rw [dfs, dif_pos hle, if_pos rfl] at hc
    obtain ⟨hpairs, _, _, _, _⟩ := scorePath_mem eff path minp c hc
    exact ⟨path, by omega, hhead, hnodup, hpairs⟩
  | case2 current path visited depth hle hne =>
    intro _ _ _ _ _ _ c hc
    rw [dfs, dif_pos hle, if_neg hne] at hc
    simp at hc
  | case3 current path visited depth hlt hvis =>
    intro _ _ _ _ _ _ c hc
    rw [dfs, dif_neg hlt, if_pos hvis] at hc
    simp at hc
  | case4 current path visited depth hlt hvis nv ih =>
    intro hlen hdep hemp hhead hnodup hvisit c hc
    rw [dfs, dif_neg hlt, if_neg hvis] at hc
    rw [List.mem_flatMap] at hc
    obtain ⟨next_curr, _, hcmem⟩ := hc
    by_cases hedge : (dlookup eff (current, next_curr)).isSome
    · rw [if_pos hedge] at hcmem
      have h1 : (path ++ [current]).length = depth + 1 := by simp [hlen]
      have h2 : depth + 1 ≤ maxlen := by omega
      have h3 : path ++ [current] = [] → next_curr = start := by
        intro habs
        exact absurd habs (by simp)
      have h4 : ∀ a, (path ++ [current]).head? = some a → a = start := by
        intro a ha
        cases path with
        | nil =>
          simp only [List.nil_append, List.head?_cons, Option.some.injEq] at ha
          rw [← ha]
          exact hemp rfl
        | cons x xs =>
          simp only [List.cons_append, List.head?_cons, Option.some.injEq] at ha
          rw [← ha]
          exact hhead x rfl
      have h5 : ((path ++ [current]).filter (fun v => v ≠ start)).Nodup := by
        rw [List.filter_append]
        by_cases hcs : current = start
        · have he : ([current].filter (fun v => v ≠ start)) = [] := by simp [hcs]
          rw [he, List.append_nil]
          exact hnodup
        · have he : ([current].filter (fun v => v ≠ start)) = [current] := by simp [hcs]
          rw [he, List.nodup_append]
          refine ⟨hnodup, List.nodup_singleton _, ?_⟩
          intro x hx hx2
          rw [List.mem_singleton] at hx2
          subst hx2
          rw [List.mem_filter] at hx
          exact hvis ⟨hvisit x hx.1 hcs, Or.inl hcs⟩
      have h6 : ∀ x ∈ path ++ [current], x ≠ start → x ∈ visited.insert current := by
        intro x hx hxs
        rcases List.mem_append.mp hx with hx1 | hx2
        · exact List.mem_insert_of_mem (hvisit x hx1 hxs)
        · rw [List.mem_singleton] at hx2
          subst hx2
          exact List.mem_insert_self _ _
      exact ih next_curr h1 h2 h3 h4 h5 h6 c hcmem
    · rw [if_neg hedge] at hcmem
      simp at hcmem

/-- Claim C2 (amended): for `max_cycle_length ≥ 2`, every returned cycle has
exactly `max_cycle_length` edges, consecutive edges are linked, the first edge
starts at `start` and the last edge ends at `start`, and the NON-start
vertices of the walk are pairwise distinct.  (As stated the claim is false:
the revisit rule never prunes the start currency at positive depth, so `start`
may also reappear at intermediate positions — see the counterexample.) -/
theorem C2_cycle_structure (ex : List (Pair × Quote)) (eff : EffMap) (start : String)
    (maxlen : ℕ) (minp : ℚ) (hml : 2 ≤ maxlen) :
    ∀ c ∈ find_profitable_cycles ex eff start maxlen minp,
      c.pairs.length = maxlen ∧
      (c.pairs.getD 0 ("", "")).1 = start ∧
      (c.pairs.getD (maxlen - 1) ("", "")).2 = start ∧
      (∀ i, i + 1 < maxlen → (c.pairs.getD i ("", "")).2 = (c.pairs.getD (i + 1) ("", "")).1) ∧
      ((c.pairs.map Prod.fst).filter (fun v => v ≠ start)).Nodup := by
  intro c hc
  by_cases hex : ex = []
  · simp [find_profitable_cycles, hex] at hc
  · simp only [find_profitable_cycles, if_neg hex] at hc
    rw [List.mem_insertionSort] at hc
    obtain ⟨p, hplen, hhead, hnodup, hpairs⟩ :=
      dfs_mem_struct eff (currenciesOf ex) start maxlen minp start [] [] 0 rfl (by omega)
        (fun _ => rfl) (by simp) (by simp) (by simp) c hc
    have hp0 : 0 < p.length := by omega
    have hstart : p.getD 0 "" = start := by
      cases p with
      | nil => simp at hp0
      | cons x xs => simpa using hhead x rfl
    have hlen2 : c.pairs.length = maxlen := by
      rw [hpairs]
      simp [hplen]
    refine ⟨hlen2, ?_, ?_, ?_, ?_⟩
    · rw [hpairs, getD_range_map _ _ _ _ hp0]
      simpa [pairAt] using hstart
    · have hlt : maxlen - 1 < p.length := by omega
      rw [hpairs, getD_range_map _ _ _ _ hlt]
      show (pairAt p (maxlen - 1)).2 = start
      rw [pairAt]
      have hmod : (maxlen - 1 + 1) % p.length = 0 := by
        rw [hplen, Nat.sub_add_cancel (by omega : 1 ≤ maxlen), Nat.mod_self]
      rw [hmod]
      exact hstart
    · intro i hi
      have hi1 : i < p.length := by omega
      have hi2 : i + 1 < p.length := by omega
      rw [hpairs, getD_range_map _ _ _ _ hi1, getD_range_map _ _ _ _ hi2]
      show (pairAt p i).2 = (pairAt p (i + 1)).1
      rw [pairAt, pairAt]
      rw [Nat.mod_eq_of_lt hi2]
    · rw [hpairs]
      have hcomp : ((List.range p.length).map (pairAt p)).map Prod.fst
          = (List.range p.length).map (fun i => p.getD i "") := by
        rw [List.map_map]
        rfl
      rw [hcomp, map_getD_range_self]
      exact hnodup

/-- Counterexample to C2 as stated: with `max_cycle_length = 4` the first
returned cycle visits the vertices A, B, A, C — the start currency A occurs
again at the intermediate position 2, contradicting "intermediate vertices
are … distinct from the start currency" and "the start currency appears
exactly once beyond the initial position, at the terminal step". -/
theorem C2_counterexample :
    ((find_profitable_cycles ex4 eff4 "A" 4 (1/1000)).map (fun c => c.pairs.map Prod.fst))
      = [["A", "B", "A", "C"], ["A", "C", "A", "B"]] ∧
    "A" ∈ ["B", "A", "C"] := by
  constructor
  · simp [find_profitable_cycles, ex4, eff4, qdum, currenciesOf, dfs, scorePath,
      scoreGo, dlookup, List.find?, List.insertionSort, List.orderedInsert]
    norm_num
  · simp

/-- Witness for C2 (amended) on the spec §8 scenario-1 triangle. -/
theorem C2_witness :
    cyc3.pairs.length = 3 ∧
    (cyc3.pairs.getD 0 ("", "")).1 = "USD" ∧
    (cyc3.pairs.getD (3 - 1) ("", "")).2 = "USD" ∧
    (∀ i, i + 1 < 3 → (cyc3.pairs.getD i ("", "")).2 = (cyc3.pairs.getD (i + 1) ("", "")).1) ∧
    ((cyc3.pairs.map Prod.fst).filter (fun v => v ≠ "USD")).Nodup :=
  C2_cycle_structure ex3 eff3 "USD" 3 (1/1000) (by omega) cyc3
    (by rw [find_ex3_eval]; exact List.mem_singleton.mpr rfl)

theorem derivGo_step_lookup (full : List (Pair × Quote)) (b q : String) (d : Quote)
    (eff : EffMap) (x : Pair) :
    dlookup (if dcontains full (q, b)
             then dinsert (dinsert eff (b, q) d.ask) (q, b) (1 / d.bid)
             else dinsert eff (b, q) d.ask) x =
      (iterWrite full ((b, q), d) x).or (dlookup eff x) := by
  rcases eq_or_ne b q with hbq | hbq
  · subst hbq
    by_cases hc : dcontains full (b, b) <;> by_cases hx : x = (b, b)
    · subst hx
      simp [hc, dlookup_dinsert, iterWrite]
    · simp [hc, dlookup_dinsert, iterWrite, hx]
    · subst hx
      simp [hc, dlookup_dinsert, iterWrite]
    · simp [hc, dlookup_dinsert, iterWrite, hx]
  · have hne : ((q, b) : Pair) ≠ (b, q) := fun h => hbq (congrArg Prod.snd h)
    by_cases hc : dcontains full (q, b)
    · by_cases hx1 : x = (q, b)
      · subst hx1
        simp [hc, dlookup_dinsert, iterWrite]
      · by_cases hx2 : x = (b, q)
        · subst hx2
          simp [hc, dlookup_dinsert, iterWrite, Ne.symm hne, fun h : ((b, q) : Pair) = (q, b) => hne h.symm]
        · simp [hc, dlookup_dinsert, iterWrite, hx1, hx2]
    · by_cases hx1 : x = (q, b)
      · subst hx1
        simp [hc, dlookup_dinsert, iterWrite, hne]
      · by_cases hx2 : x = (b, q)
        · subst hx2
          simp [hc, dlookup_dinsert, iterWrite, hbq,
            fun h : ((b, q) : Pair) = (q, b) => hne h.symm]
        · simp [hc, dlookup_dinsert, iterWrite, hx1, hx2]

theorem derivGo_lookup (full : List (Pair × Quote)) :
    ∀ (l : List (Pair × Quote)) (eff : EffMap) (x : Pair),
      dlookup (derivGo full l eff) x = (lastWrite full l x).or (dlookup eff x) := by
  intro l
  induction l with
  | nil =>
    intro eff x
    rfl
  | cons e rest ih =>
    intro eff x
    obtain ⟨⟨b, q⟩, d⟩ := e
    rw [show derivGo full (((b, q), d) :: rest) eff =
      derivGo full rest (if dcontains full (q, b)
        then dinsert (dinsert eff (b, q) d.ask) (q, b) (1 / d.bid)
        else dinsert eff (b, q) d.ask) from rfl]
    rw [ih, lastWrite, derivGo_step_lookup, Option.or_assoc]

theorem deriveEffective_lookup (R : List (Pair × Quote)) (x : Pair) :
    dlookup (deriveEffective R) x = lastWrite R R x := by
  rw [deriveEffective, derivGo_lookup, dlookup_nil, Option.or_none]

theorem lastWrite_append (full : List (Pair × Quote)) (l1 l2 : List (Pair × Quote)) (x : Pair) :
    lastWrite full (l1 ++ l2) x = (lastWrite full l2 x).or (lastWrite full l1 x) := by
  induction l1 with
  | nil =>
    rw [List.nil_append, lastWrite, Option.or_none]
  | cons e rest ih =>
    rw [List.cons_append, lastWrite, ih, lastWrite, Option.or_assoc]

theorem lastWrite_of_no_writer (full : List (Pair × Quote)) (l : List (Pair × Quote)) (x : Pair)
    (h : ∀ e ∈ l, iterWrite full e x = none) : lastWrite full l x = none := by
  induction l with
  | nil => rfl
  | cons e rest ih =>
    rw [lastWrite, ih (fun e he => h e (List.mem_cons_of_mem _ he)),
      h e (List.mem_cons_self _ _), Option.none_or]

theorem dinsert_keys {κ ν : Type} [DecidableEq κ] (m : List (κ × ν)) (k : κ) (v : ν) :
    (dinsert m k v).map Prod.fst =
      if k ∈ m.map Prod.fst then m.map Prod.fst else m.map Prod.fst ++ [k] := by
  induction m with
  | nil => simp [dinsert]
  | cons kv rest ih =>
    obtain ⟨a, b⟩ := kv
    by_cases h : a = k
    · subst h
      simp [dinsert]
    · have h2 : ¬k = a := fun hh => h hh.symm
      simp only [dinsert, if_neg h, List.map_cons, List.mem_cons]
      rw [ih]
      by_cases hk : k ∈ rest.map Prod.fst
      · simp [hk, h2]
      · simp [hk, h2]

theorem dinsert_keys_nodup {κ ν : Type} [DecidableEq κ] (m : List (κ × ν)) (k : κ) (v : ν)
    (h : (m.map Prod.fst).Nodup) : ((dinsert m k v).map Prod.fst).Nodup := by
  rw [dinsert_keys]
  by_cases hk : k ∈ m.map Prod.fst
  · rwa [if_pos hk]
  · rw [if_neg hk, List.nodup_append]
    refine ⟨h, List.nodup_singleton _, ?_⟩
    intro x hx hx2
    rw [List.mem_singleton] at hx2
    subst hx2
    exact hk hx

theorem buildStep_keys_nodup (vp : List Pair) (acc : List (Pair × Quote))
    (pr : Pair × Option Quote) (h : (acc.map Prod.fst).Nodup) :
    ((buildStep vp acc pr).map Prod.fst).Nodup := by
  obtain ⟨⟨b, q⟩, r⟩ := pr
  cases r with
  | none => exact h
  | some result =>
    simp only [buildStep]
    split_ifs with hcond
    · exact dinsert_keys_nodup _ _ _ (dinsert_keys_nodup _ _ _ h)
    · exact dinsert_keys_nodup _ _ _ h

theorem buildRates_keys_nodup (vp : List Pair) (results : List (Pair × Option Quote)) :
    ((buildRates vp results).map Prod.fst).Nodup := by
  suffices H : ∀ (res : List (Pair × Option Quote)) (acc : List (Pair × Quote)),
      (acc.map Prod.fst).Nodup →
      ((res.foldl (buildStep vp) acc).map Prod.fst).Nodup by
    exact H results [] (by simp)
  intro res
  induction res with
  | nil =>
    intro acc h
    exact h
  | cons pr rest ih =>
    intro acc h
    exact ih (buildStep vp acc pr) (buildStep_keys_nodup vp acc pr h)

theorem dlookup_eq_some_split {κ ν : Type} [DecidableEq κ] :
    ∀ (m : List (κ × ν)) (k : κ) (v : ν), dlookup m k = some v →
      ∃ m1 m2, m = m1 ++ (k, v) :: m2 ∧ ∀ e ∈ m1, e.1 ≠ k := by
  intro m
  induction m with
  | nil =>
    intro k v h
    simp [dlookup_nil] at h
  | cons kv rest ih =>
    intro k v h
    obtain ⟨a, b⟩ := kv
    rw [dlookup_cons] at h
    by_cases ha : a = k
    · subst ha
      rw [if_pos rfl] at h
      obtain hb : b = v := by simpa using h
      subst hb
      exact ⟨[], rest, rfl, by simp⟩
    · rw [if_neg ha] at h
      obtain ⟨m1, m2, hm, hkey⟩ := ih k v h
      refine ⟨(a, b) :: m1, m2, by rw [hm]; rfl, ?_⟩
      intro e he
      rcases List.mem_cons.mp he with he1 | he2
      · subst he1
        exact ha
      · exact hkey e he2

theorem dlookup_eq_none_iff {κ ν : Type} [DecidableEq κ] (m : List (κ × ν)) (k : κ) :
    dlookup m k = none ↔ k ∉ m.map Prod.fst := by
  rw [← dlookup_isSome_iff]
  cases dlookup m k <;> simp

theorem nodup_two_middle {κ : Type} (a b : κ) (xs ys zs : List κ)
    (h : (xs ++ a :: (ys ++ b :: zs)).Nodup) :
    a ≠ b ∧ a ∉ xs ∧ a ∉ ys ∧ a ∉ zs ∧ b ∉ xs ∧ b ∉ ys ∧ b ∉ zs := by
  rw [List.nodup_middle] at h
  obtain ⟨ha, h2⟩ := List.nodup_cons.mp h
  rw [show xs ++ (ys ++ b :: zs) = (xs ++ ys) ++ b :: zs by rw [List.append_assoc]] at h2
  rw [List.nodup_middle] at h2
  obtain ⟨hb, _⟩ := List.nodup_cons.mp h2
  simp only [List.mem_append, List.mem_cons] at ha hb
  push_neg at ha hb
  exact ⟨ha.2.2.1, ha.1, ha.2.1, ha.2.2.2, hb.1.1, hb.1.2, hb.2⟩

theorem iterWrite_eq_none (full : List (Pair × Quote)) (e : Pair × Quote) (x : Pair)
    (h1 : e.1 ≠ x) (h2 : e.1 ≠ x.swap) : iterWrite full e x = none := by
  rw [iterWrite, if_neg, if_neg (fun hh => h1 hh.symm)]
  intro hh
  apply h2
  rw [hh.1]
  exact (Prod.swap_swap _).symm

/-- Claim C3 (amended): after a snapshot, (i) a rate-book pair (B,Q) whose
reverse (Q,B) is not in the rate book gets `eff[(B,Q)] = Quote(B,Q).ask`;
(ii) when both orientations are present in the rate book, the later-stored
orientation's iteration wins: its own entry is its ask and the earlier
orientation's entry becomes `1/later.bid` — so the claim's rule
`eff[(B,Q)] = Quote(B,Q).ask` fails for the earlier orientation whenever both
directions are catalog pairs (see the counterexample); for a synthetic
reverse (`Quote(Q,B) = inv Quote(B,Q)`) the two rules coincide. -/
theorem C3_effective_rate_derivation (vp : List Pair) (results : List (Pair × Option Quote))
    (B Q : String) (hBQ : B ≠ Q) :
    (∀ d : Quote, dlookup (buildRates vp results) (B, Q) = some d →
      dlookup (buildRates vp results) (Q, B) = none →
      dlookup (deriveEffective (buildRates vp results)) (B, Q) = some d.ask) ∧
    (∀ (l1 l2 l3 : List (Pair × Quote)) (d d2 : Quote),
      buildRates vp results = l1 ++ ((B, Q), d) :: (l2 ++ ((Q, B), d2) :: l3) →
      dlookup (deriveEffective (buildRates vp results)) (B, Q) = some (1 / d2.bid) ∧
      dlookup (deriveEffective (buildRates vp results)) (Q, B) = some d2.ask) := by
  have hnd := buildRates_keys_nodup vp results
  have hBQne : ((B, Q) : Pair) ≠ (Q, B) := by
    intro h
    rw [Prod.mk.injEq] at h
    exact hBQ h.1
  constructor
  · intro d hd hnone
    obtain ⟨m1, m2, hm, hkey1⟩ := dlookup_eq_some_split _ _ _ hd
    have hnd2 := hnd
    rw [hm, List.map_append, List.map_cons, List.nodup_middle] at hnd2
    obtain ⟨hnotmem, _⟩ := List.nodup_cons.mp hnd2
    simp only [List.mem_append] at hnotmem
    push_neg at hnotmem
    have hQB : ∀ e ∈ m1 ++ ((B, Q), d) :: m2, e.1 ≠ (Q, B) := by
      rw [← hm]
      intro e he heq
      have hmem : (Q, B) ∈ (buildRates vp results).map Prod.fst :=
        heq ▸ List.mem_map_of_mem Prod.fst he
      exact (dlookup_eq_none_iff _ _).mp hnone hmem
    rw [deriveEffective_lookup, hm]
    rw [lastWrite_append, lastWrite]
    have hm2none : lastWrite (m1 ++ ((B, Q), d) :: m2) m2 (B, Q) = none := by
      apply lastWrite_of_no_writer
      intro e he
      refine iterWrite_eq_none _ e _ ?_ ?_
      · intro heq
        exact hnotmem.2 (heq ▸ List.mem_map_of_mem Prod.fst he)
      · intro heq
        exact hQB e (List.mem_append_right _ (List.mem_cons_of_mem _ he)) (by simpa using heq)
    rw [hm2none, Option.none_or]
    have hiw : iterWrite (m1 ++ ((B, Q), d) :: m2) ((B, Q), d) (B, Q) = some d.ask := by
      rw [iterWrite, if_neg, if_pos rfl]
      intro hh
      exact hBQne (by simpa using hh.1)
    rw [hiw]
    rfl
  · intro l1 l2 l3 d d2 hR
    have hnd2 := hnd
    rw [hR, List.map_append, List.map_cons, List.map_append, List.map_cons] at hnd2
    obtain ⟨hab, h1a, h2a, h3a, h1b, h2b, h3b⟩ :=
      nodup_two_middle ((B, Q) : Pair) ((Q, B) : Pair) (l1.map Prod.fst) (l2.map Prod.fst)
        (l3.map Prod.fst) hnd2
    have hcontB : dcontains (l1 ++ ((B, Q), d) :: (l2 ++ ((Q, B), d2) :: l3)) (B, Q) = true := by
      rw [dcontains_iff]
      simp
    have hl3noneB :
        lastWrite (l1 ++ ((B, Q), d) :: (l2 ++ ((Q, B), d2) :: l3)) l3 (B, Q) = none := by
      apply lastWrite_of_no_writer
      intro e he
      refine iterWrite_eq_none _ e _ ?_ ?_
      · intro heq
        exact h3a (heq ▸ List.mem_map_of_mem Prod.fst he)
      · intro heq
        exact h3b (by
          have : e.1 = (Q, B) := by simpa using heq
          exact this ▸ List.mem_map_of_mem Prod.fst he)
    have hl3noneQ :
        lastWrite (l1 ++ ((B, Q), d) :: (l2 ++ ((Q, B), d2) :: l3)) l3 (Q, B) = none := by
      apply lastWrite_of_no_writer
      intro e he
      refine iterWrite_eq_none _ e _ ?_ ?_
      · intro heq
        exact h3b (heq ▸ List.mem_map_of_mem Prod.fst he)
      · intro heq
        exact h3a (by
          have : e.1 = (B, Q) := by simpa using heq
          exact this ▸ List.mem_map_of_mem Prod.fst he)
    constructor
    · rw [deriveEffective_lookup, hR]
      rw [lastWrite_append, lastWrite, lastWrite_append, lastWrite]
      have hiw2 : iterWrite (l1 ++ ((B, Q), d) :: (l2 ++ ((Q, B), d2) :: l3))
          ((Q, B), d2) (B, Q) = some (1 / d2.bid) := by
        rw [iterWrite, if_pos ⟨rfl, hcontB⟩]
      rw [hl3noneB, Option.none_or, hiw2]
      rfl
    · rw [deriveEffective_lookup, hR]
      rw [lastWrite_append, lastWrite, lastWrite_append, lastWrite]
      have hiw3 : iterWrite (l1 ++ ((B, Q), d) :: (l2 ++ ((Q, B), d2) :: l3))
          ((Q, B), d2) (Q, B) = some d2.ask := by
        rw [iterWrite, if_neg, if_pos rfl]
        intro hh
        exact (Ne.symm hBQne) (by simpa using hh.1)
      rw [hl3noneQ, Option.none_or, hiw3]
      rfl

/-- Counterexample to C3 as stated: with both orientations (A,B) and (B,A) as
catalog pairs with successful quotes, the rate book holds (A,B) with ask 3,
yet the effective-rate book maps (A,B) to 2 = 1/Quote(B,A).bid — the
later-processed reverse pair overwrote the entry, so `eff[(B,Q)]` is not
`Quote(B,Q).ask` for every rate-book pair. -/
theorem C3_counterexample :
    dlookup (buildRates vpC3 resC3) ("A", "B") = some qC3a ∧
    qC3a.ask = 3 ∧
    dlookup (deriveEffective (buildRates vpC3 resC3)) ("A", "B") = some 2 ∧
    (2 : ℚ) ≠ 3 := by
  refine ⟨?_, rfl, ?_, by norm_num⟩
  · simp [buildRates, buildStep, vpC3, resC3, qC3a, qC3b, dinsert, dcontains, dlookup,
      List.find?, invQuote]
  · simp [buildRates, buildStep, vpC3, resC3, qC3a, qC3b, dinsert, dcontains, dlookup,
      List.find?, invQuote, deriveEffective, derivGo]

/-- Witness for C3 (amended): part (i) at a snapshot where the reverse fetch
failed, part (ii) at the mutual-catalog snapshot of the counterexample. -/
theorem C3_witness :
    dlookup (deriveEffective (buildRates vpC3 resC3w)) ("A", "B") = some qC3a.ask ∧
    (dlookup (deriveEffective (buildRates vpC3 resC3)) ("A", "B") = some (1 / qC3b.bid) ∧
     dlookup (deriveEffective (buildRates vpC3 resC3)) ("B", "A") = some qC3b.ask) := by
  constructor
  · exact (C3_effective_rate_derivation vpC3 resC3w "A" "B" (by simp)).1 qC3a
      (by simp [buildRates, buildStep, vpC3, resC3w, qC3a, dinsert, dcontains, dlookup,
        List.find?, invQuote])
      (by simp [buildRates, buildStep, vpC3, resC3w, qC3a, dinsert, dcontains, dlookup,
        List.find?, invQuote])
  · exact (C3_effective_rate_derivation vpC3 resC3 "A" "B" (by simp)).2 [] [] [] qC3a qC3b
      (by simp [buildRates, buildStep, vpC3, resC3, qC3a, qC3b, dinsert, dcontains, invQuote])
